import Mathlib

/-!
Verification of the matching-and-dispatch core of the ModSecurity rule engine:
`src/utils/regex.cc` (the `Regex` matching abstraction over PCRE) and
`src/rules_set_phases.cc` (the phase-ordered rule container).

The PCRE library itself is external to the repository.  Each `pcre_exec`
call site is therefore abstracted as an *engine*: a function from the call
parameters that vary across iterations (the start offset and whether the
previous match was zero-length, which selects the
`PCRE_NOTEMPTY_ATSTART | PCRE_ANCHORED` options) to a response consisting of
the return code `rc` and the offset vector, read as one `(start, end)` pair
per capture group.  The control flow of `regex.cc` is embedded faithfully
for the default (non-`WITH_PCRE2`) build, which is the branch the claims
point at.  `size_t` subtraction is modelled as subtraction modulo `2^64`.
-/

/-- The `RegexResult` type from `src/utils/regex.h` (used throughout `regex.cc`):
the tri-state outcome classification. -/
inductive RegexResult where
  | Ok : RegexResult
  | ErrorMatchLimit : RegexResult
  | ErrorOther : RegexResult
deriving DecidableEq

/-- PCRE return code for a clean non-match (`PCRE_ERROR_NOMATCH`). -/
def PCRE_ERROR_NOMATCH : Int := -1

/-- PCRE return code for an exceeded match-limit budget (`PCRE_ERROR_MATCHLIMIT`). -/
def PCRE_ERROR_MATCHLIMIT : Int := -8

/-- Modelled from the spec: the `SMatch` value type of `src/utils/regex.h`
(not under `src/`) — one match occurrence, an owned copy of the matched
substring plus the byte offset stored with it. -/
structure SMatch where
  m_match : List Char
  m_offset : Nat
deriving DecidableEq

/-- Modelled from the spec: the `SMatchCapture` value type of
`src/utils/regex.h` (not under `src/`) — one capture group result: group
index, start offset and length, exactly the three constructor arguments
used at every `SMatchCapture(i, start, len)` site in `regex.cc`. -/
structure SMatchCapture where
  m_group : Nat
  m_offset : Nat
  m_length : Nat
deriving DecidableEq

/-- One response of the underlying PCRE engine to a `pcre_exec` call:
the return code and the offset vector, read as the `(ovector[2*i],
ovector[2*i+1])` pair for group `i`. -/
structure EngineResponse where
  rc : Int
  groups : Nat → Nat × Nat

/-- The abstracted matching engine: the response of `pcre_exec` for a given
start offset and option set.  The options used by `regex.cc` are either `0`
or `PCRE_NOTEMPTY_ATSTART | PCRE_ANCHORED`; the `Bool` argument is `true`
for the latter.  The compiled pattern, the subject bytes handed to PCRE and
the match-limit budget are fixed parameters of one call and are absorbed
into the engine function. -/
def Engine : Type := Nat → Bool → EngineResponse

/-- C `size_t` subtraction `a - b` (modulo `2^64`), as in
`size_t len = end - start;` in `regex.cc`. -/
def csub (a b : Nat) : Nat := (2 ^ 64 + a - b) % 2 ^ 64

/-- The C++ substring constructor `std::string(s, pos, count)`: the substring of `s` starting at `pos` of
length at most `count` (C++ truncates `count` at `size() - pos`; for
`pos > size()` C++ throws, so theorems using this keep `pos` in range). -/
def cppSubstr (σ : List Char) (pos count : Nat) : List Char :=
  (σ.drop pos).take count

/-- Function `Regex::to_regex_result` (`src/utils/regex.cc:405-428`): classification
of a `pcre_exec` return code into the three `RegexResult` buckets. -/
def to_regex_result (pcre_exec_result : Int) : RegexResult :=
  if pcre_exec_result > 0 ∨ pcre_exec_result = PCRE_ERROR_NOMATCH then
    RegexResult.Ok
  else if pcre_exec_result = PCRE_ERROR_MATCHLIMIT then
    RegexResult.ErrorMatchLimit
  else
    RegexResult.ErrorOther

/-- The capture-collection `for` loop of `Regex::searchOneMatch`
(`src/utils/regex.cc:227-236`): for each group `i < rc`, skip it when its
end offset exceeds the subject length, otherwise record
`SMatchCapture(i, start, len)`.  `n` is the number of groups still to
process, `i` the current group index. -/
def somGroups (sLen : Nat) (g : Nat → Nat × Nat) : Nat → Nat → List SMatchCapture
  | 0, _ => []
  | n + 1, i =>
    let st := (g i).1
    let e := (g i).2
    if sLen < e then somGroups sLen g n (i + 1)
    else ⟨i, st, csub e st⟩ :: somGroups sLen g n (i + 1)

/-- Function `Regex::searchOneMatch` (`src/utils/regex.cc:192-242`): one `pcre_exec`
attempt at offset 0 with options 0, appending each in-bounds capture group
to the caller's collection, returning the classified outcome. -/
def Regex.searchOneMatch (σ : List Char) (engine : Engine)
    (captures : List SMatchCapture) : RegexResult × List SMatchCapture :=
  let resp := engine 0 false
  (to_regex_result resp.rc,
   captures ++ somGroups σ.length resp.groups resp.rc.toNat 0)

/-- The capture-collection `for` loop of `Regex::searchGlobal`
(`src/utils/regex.cc:296-321`): each in-bounds group is appended with the
globally renumbered index `firstGroup + i`; group 0 additionally updates
the cursor `offset` and the `prev_match_zero_length` flag.  Returns the
updated `(captures, offset, prev_match_zero_length)`. -/
def pgAux (sLen firstGroup : Nat) (g : Nat → Nat × Nat) :
    Nat → Nat → Nat → Bool → List SMatchCapture →
    List SMatchCapture × Nat × Bool
  | 0, _, offset, prev, acc => (acc, offset, prev)
  | n + 1, i, offset, prev, acc =>
    let st := (g i).1
    let e := (g i).2
    let len := csub e st
    if sLen < e then pgAux sLen firstGroup g n (i + 1) offset prev acc
    else
      let acc2 := acc ++ [⟨firstGroup + i, st, len⟩]
      if i = 0 then
        if 0 < len then pgAux sLen firstGroup g n (i + 1) e false acc2
        else if offset = sLen then
          pgAux sLen firstGroup g n (i + 1) (offset + 1) prev acc2
        else pgAux sLen firstGroup g n (i + 1) offset true acc2
      else pgAux sLen firstGroup g n (i + 1) offset prev acc2

/-- The `while (startOffset <= s.length())` loop of `Regex::searchGlobal`
(`src/utils/regex.cc:244-344`), with an explicit iteration budget `fuel`
(`none` means the budget was exhausted before the C loop finished; for any
engine whose responses make the C loop terminate, a large enough `fuel`
yields `some`).  `crlf` is the engine-configuration query
`crlfIsNewline()` (`src/utils/regex.cc:64-88`), which reads global PCRE
configuration external to the loop. -/
def Regex.searchGlobalAux (crlf : Bool) (σ : List Char) (engine : Engine) :
    Nat → Nat → Bool → List SMatchCapture →
    Option (RegexResult × List SMatchCapture)
  | 0, _, _, _ => none
  | fuel + 1, offset, prev, caps =>
    if offset ≤ σ.length then
      let resp := engine offset prev
      let rr := to_regex_result resp.rc
      if rr ≠ RegexResult.Ok then some (rr, caps)
      else if 0 < resp.rc then
        let pr := pgAux σ.length caps.length resp.groups resp.rc.toNat 0 offset prev caps
        Regex.searchGlobalAux crlf σ engine fuel pr.2.1 pr.2.2 pr.1
      else if prev then
        let o1 := offset + 1
        let o2 :=
          if crlf ∧ o1 < σ.length ∧ σ.getD (o1 - 1) 'x' = '\r' ∧ σ.getD o1 'x' = '\n'
          then o1 + 1 else o1
        Regex.searchGlobalAux crlf σ engine fuel o2 false caps
      else some (RegexResult.Ok, caps)
    else some (RegexResult.Ok, caps)

/-- Function `Regex::searchGlobal` (`src/utils/regex.cc:244-344`): the loop
started at offset 0 with the zero-length flag clear. -/
def Regex.searchGlobal (crlf : Bool) (σ : List Char) (engine : Engine)
    (fuel : Nat) (captures : List SMatchCapture) :
    Option (RegexResult × List SMatchCapture) :=
  Regex.searchGlobalAux crlf σ engine fuel 0 false captures

/-- The capture-collection `for` loop of `Regex::searchAll`
(`src/utils/regex.cc:167-183`): prepends each group as an `SMatch` and
advances `offset` to `start + len`; a group whose end exceeds the subject
length sets `rc = -1` and breaks, a zero-length group is recorded and then
sets `rc = 0` and breaks.  The returned `Bool` is the `rc > 0` test of the
enclosing `do`-`while`: `true` iff the outer loop continues. -/
def saGroups (σ : List Char) (g : Nat → Nat × Nat) :
    Nat → Nat → Nat → List SMatch → List SMatch × Nat × Bool
  | 0, _, offset, acc => (acc, offset, true)
  | n + 1, i, offset, acc =>
    let st := (g i).1
    let e := (g i).2
    let len := csub e st
    if σ.length < e then (acc, offset, false)
    else
      let m : SMatch := ⟨cppSubstr σ st len, st⟩
      if len = 0 then (m :: acc, st + len, false)
      else saGroups σ g n (i + 1) (st + len) (m :: acc)

/-- The `do`-`while (rc > 0)` loop of `Regex::searchAll`
(`src/utils/regex.cc:139-190`), with an explicit iteration budget. -/
def Regex.searchAllAux (σ : List Char) (engine : Engine) :
    Nat → Nat → List SMatch → List SMatch
  | 0, _, acc => acc
  | fuel + 1, offset, acc =>
    let resp := engine offset false
    if 0 < resp.rc then
      let pr := saGroups σ resp.groups resp.rc.toNat 0 offset acc
      if pr.2.2 then Regex.searchAllAux σ engine fuel pr.2.1 pr.1 else pr.1
    else acc

/-- Function `Regex::searchAll` (`src/utils/regex.cc:139-190`): the loop
started at offset 0 with an empty result list. -/
def Regex.searchAll (σ : List Char) (engine : Engine) (fuel : Nat) :
    List SMatch :=
  Regex.searchAllAux σ engine fuel 0 []

/-- The matches of `Regex::searchAll` listed in discovery order (first
found first).  This is the comparison definition for the spec sentence
"must be returned in reverse-discovery order": `saGroupsDisc` performs the
same iteration as `saGroups` but appends instead of prepending. -/
def saGroupsDisc (σ : List Char) (g : Nat → Nat × Nat) :
    Nat → Nat → Nat → List SMatch × Nat × Bool
  | 0, _, offset => ([], offset, true)
  | n + 1, i, offset =>
    let st := (g i).1
    let e := (g i).2
    let len := csub e st
    if σ.length < e then ([], offset, false)
    else
      let m : SMatch := ⟨cppSubstr σ st len, st⟩
      if len = 0 then ([m], st + len, false)
      else
        let pr := saGroupsDisc σ g n (i + 1) (st + len)
        (m :: pr.1, pr.2)

/-- The outer `Regex::searchAll` loop collecting matches in discovery
order (comparison definition for the reverse-discovery-order property). -/
def Regex.searchAllDisc (σ : List Char) (engine : Engine) :
    Nat → Nat → List SMatch
  | 0, _ => []
  | fuel + 1, offset =>
    let resp := engine offset false
    if 0 < resp.rc then
      let pr := saGroupsDisc σ resp.groups resp.rc.toNat 0 offset
      if pr.2.2 then pr.1 ++ Regex.searchAllDisc σ engine fuel pr.2.1
      else pr.1
    else []

/-- Function `Regex::search(const std::string&, SMatch*)`
(`src/utils/regex.cc:346-378`): one attempt; on success the out-parameter
is set to `SMatch(std::string(s, ovector[ret-1], ovector[ret] -
ovector[ret-1]), 0)` where `ret` is the `pcre_exec(...) > 0` boolean, so
`ovector[0]`/`ovector[1]` — the group-0 start and end — and a literal `0`
offset.  Modelled as `none` when no match is reported. -/
def Regex.search (σ : List Char) (engine : Engine) : Option SMatch :=
  let resp := engine 0 false
  if 0 < resp.rc then
    some ⟨cppSubstr σ ((resp.groups 0).1) (csub ((resp.groups 0).2) ((resp.groups 0).1)), 0⟩
  else none

/-- Modelled from the spec: `NUMBER_OF_PHASES`, the sentinel of the
`modsecurity::Phases` enum declared in `modsecurity/modsecurity.h` (not
under `src/`) — the fixed number of inspection phases.  The engine's phase
list (connection, URI, request headers, request body, response headers,
response body, logging) has seven entries; no claim depends on the exact
value. -/
def NUMBER_OF_PHASES : Nat := 7

/-- Modelled from the spec: the `Rule` capability the phase container
consumes — a declared phase (`getPhase() -> int`) and, only for
operator-bearing rules (`dynamic_cast<const RuleWithOperator *>`
succeeding), an identifier `m_ruleId`. -/
structure Rule where
  phase : Int
  ruleId : Option Int
deriving DecidableEq

/-- Modelled from the spec: the `Rules` phase bucket (declared in
`modsecurity/rules.h`, not under `src/`) — an insertion-ordered collection
of rules. -/
structure Rules where
  m_rules : List Rule
deriving DecidableEq

/-- Bucket size `Rules::size()`: the number of rules in the bucket. -/
def Rules.size (r : Rules) : Nat := r.m_rules.length

/-- Modelled from the spec: `Rules::insert` appends the rule to the
ordered collection (phase-range validation happens at the table level). -/
def Rules.insertRule (r : Rules) (rule : Rule) : Rules :=
  ⟨r.m_rules ++ [rule]⟩

/-- The table `RulesSetPhases` (`src/rules_set_phases.cc`): the fixed-size array
`Rules m_rulesAtPhase[NUMBER_OF_PHASES]` of phase buckets. -/
structure RulesSetPhases where
  m_rulesAtPhase : Fin NUMBER_OF_PHASES → Rules

/-- The rules of bucket `i`, or `[]` for an index outside the table —
observer used to state bucket-level facts without function equality. -/
def RulesSetPhases.bucketRules (t : RulesSetPhases) (i : Nat) : List Rule :=
  if h : i < NUMBER_OF_PHASES then (t.m_rulesAtPhase ⟨i, h⟩).m_rules else []

/-- The total number of rules held by the table, summed over all buckets. -/
def RulesSetPhases.totalRules (t : RulesSetPhases) : Nat :=
  ((List.finRange NUMBER_OF_PHASES).map (fun i => (t.m_rulesAtPhase i).size)).sum

/-- Function `RulesSetPhases::insert` (`src/rules_set_phases.cc:32-39`): reject
(return `false`, no mutation) when `getPhase() >= NUMBER_OF_PHASES`;
otherwise append to `m_rulesAtPhase[getPhase()]` and return `true`.  The
guard does not exclude a negative phase, for which the C++ code indexes
the fixed array out of bounds — undefined behavior, modelled as `none`. -/
def RulesSetPhases.insert (t : RulesSetPhases) (rule : Rule) :
    Option (Bool × RulesSetPhases) :=
  if h1 : (NUMBER_OF_PHASES : Int) ≤ rule.phase then some (false, t)
  else if h : 0 ≤ rule.phase then
    let p : Fin NUMBER_OF_PHASES := ⟨rule.phase.toNat, by omega⟩
    some (true, ⟨Function.update t.m_rulesAtPhase p
      ((t.m_rulesAtPhase p).insertRule rule)⟩)
  else none

/-- Replace bucket `p` of the table (the effect of the mutating per-phase
`m_rulesAtPhase[phase].append(...)` call on the array). -/
def RulesSetPhases.setBucket (t : RulesSetPhases) (p : Fin NUMBER_OF_PHASES)
    (b : Rules) : RulesSetPhases :=
  ⟨Function.update t.m_rulesAtPhase p b⟩

/-- The identifier-collection loop of `RulesSetPhases::append`
(`src/rules_set_phases.cc:46-55`): every phase of the destination table
contributes the `m_ruleId` of each of its operator-bearing rules
(`dynamic_cast` failures are skipped), in phase order. -/
def RulesSetPhases.collectIds (t : RulesSetPhases) : List Int :=
  (List.finRange NUMBER_OF_PHASES).flatMap
    (fun i => (t.m_rulesAtPhase i).m_rules.filterMap Rule.ruleId)

/-- The sorted identifier list `v` of `RulesSetPhases::append`
(`std::sort(v.begin(), v.end())`, `src/rules_set_phases.cc:56`). -/
def RulesSetPhases.usedIds (t : RulesSetPhases) : List Int :=
  (t.collectIds).insertionSort (· ≤ ·)

/-- The per-phase merge `Rules::append(from, v, err)` (declared in
`modsecurity/rules.h`, not under `src/`), abstracted: from the destination
bucket, the source bucket and the exclusion list it produces the returned
count (negative on fatal merge error) and the destination bucket's new
contents.  The error sink only receives a diagnostic message and is not
modelled. -/
def MergeFn : Type := Rules → Rules → List Int → Int × Rules

/-- The phase-by-phase merge loop of `RulesSetPhases::append`
(`src/rules_set_phases.cc:58-64`): at each phase the per-phase merge runs
with the shared exclusion list `v`; a negative result is returned
immediately, otherwise it is accumulated and the next phase follows. -/
def RulesSetPhases.appendGo (merge : MergeFn) (src : RulesSetPhases)
    (v : List Int) (p : Nat) (acc : Int) (t : RulesSetPhases) :
    Int × RulesSetPhases :=
  if h : p < NUMBER_OF_PHASES then
    let pr := merge (t.m_rulesAtPhase ⟨p, h⟩) (src.m_rulesAtPhase ⟨p, h⟩) v
    if pr.1 < 0 then (pr.1, t.setBucket ⟨p, h⟩ pr.2)
    else RulesSetPhases.appendGo merge src v (p + 1) (acc + pr.1)
      (t.setBucket ⟨p, h⟩ pr.2)
  else (acc, t)
termination_by NUMBER_OF_PHASES - p
decreasing_by omega

/-- Function `RulesSetPhases::append` (`src/rules_set_phases.cc:42-67`): build the
sorted identifier list from all phases of the destination table, then merge
the source table phase by phase in ascending order. -/
def RulesSetPhases.append (t : RulesSetPhases) (merge : MergeFn)
    (src : RulesSetPhases) : Int × RulesSetPhases :=
  RulesSetPhases.appendGo merge src t.usedIds 0 0 t

/-! ### Helper lemmas -/

lemma csub_self (a : Nat) : csub a a = 0 := by
  simp [csub]

lemma csub_of_le {a b : Nat} (h : b ≤ a) (h2 : a - b < 2 ^ 64) :
    csub a b = a - b := by
  rw [csub]
  have : 2 ^ 64 + a - b = 2 ^ 64 + (a - b) := by omega
  rw [this, Nat.add_mod_left, Nat.mod_eq_of_lt h2]

lemma pgAux_extends (sLen fg : Nat) (g : Nat → Nat × Nat) :
    ∀ n i offset prev acc,
      ∃ L, (pgAux sLen fg g n i offset prev acc).1 = acc ++ L ∧
        ∀ c ∈ L, ∃ j, i ≤ j ∧ j < i + n ∧ (g j).2 ≤ sLen ∧
          c = ⟨fg + j, (g j).1, csub (g j).2 (g j).1⟩ := by
  intro n
  induction n with
  | zero =>
    intro i offset prev acc
    exact ⟨[], by simp [pgAux], by simp⟩
  | succ n ih =>
    intro i offset prev acc
    rw [pgAux]
    have key : (g i).2 ≤ sLen → ∀ offset2 prev2,
        ∃ L, (pgAux sLen fg g n (i + 1) offset2 prev2
            (acc ++ [⟨fg + i, (g i).1, csub (g i).2 (g i).1⟩])).1 = acc ++ L ∧
          ∀ c ∈ L, ∃ j, i ≤ j ∧ j < i + (n + 1) ∧ (g j).2 ≤ sLen ∧
            c = ⟨fg + j, (g j).1, csub (g j).2 (g j).1⟩ := by
      intro hbb offset2 prev2
      obtain ⟨L, hL, hmem⟩ := ih (i + 1) offset2 prev2
        (acc ++ [⟨fg + i, (g i).1, csub (g i).2 (g i).1⟩])
      refine ⟨⟨fg + i, (g i).1, csub (g i).2 (g i).1⟩ :: L, by simpa using hL,
        fun c hc => ?_⟩
      rcases List.mem_cons.mp hc with h | h
      · exact ⟨i, le_refl i, by omega, hbb, h⟩
      · obtain ⟨j, h1, h2, h3, h4⟩ := hmem c h
        exact ⟨j, by omega, by omega, h3, h4⟩
    split_ifs with hb hi hlen hoff
    · obtain ⟨L, hL, hmem⟩ := ih (i + 1) offset prev acc
      refine ⟨L, hL, fun c hc => ?_⟩
      obtain ⟨j, h1, h2, h3, h4⟩ := hmem c hc
      exact ⟨j, by omega, by omega, h3, h4⟩
    · exact key (by omega) (g i).2 false
    · exact key (by omega) (offset + 1) prev
    · exact key (by omega) offset true
    · exact key (by omega) offset prev

lemma searchGlobalAux_extends (crlf : Bool) (σ : List Char) (engine : Engine) :
    ∀ fuel offset prev caps res out,
      Regex.searchGlobalAux crlf σ engine fuel offset prev caps = some (res, out) →
      ∃ L, out = caps ++ L ∧ ∀ c ∈ L, ∃ off2 pb j,
        j < (engine off2 pb).rc.toNat ∧
        ((engine off2 pb).groups j).2 ≤ σ.length ∧
        c.m_offset = ((engine off2 pb).groups j).1 ∧
        c.m_length = csub ((engine off2 pb).groups j).2 ((engine off2 pb).groups j).1 := by
  intro fuel
  induction fuel with
  | zero =>
    intro offset prev caps res out h
    simp [Regex.searchGlobalAux] at h
  | succ fuel ih =>
    intro offset prev caps res out h
    rw [Regex.searchGlobalAux] at h
    by_cases hoff : offset ≤ σ.length
    · simp only [if_pos hoff] at h
      by_cases herr : to_regex_result (engine offset prev).rc = RegexResult.Ok
      · simp only [herr, ne_eq, not_true_eq_false, if_false] at h
        by_cases hrc : 0 < (engine offset prev).rc
        · simp only [hrc, if_true] at h
          obtain ⟨L2, hL2, hmem2⟩ := ih _ _ _ _ _ h
          obtain ⟨L1, hL1, hmem1⟩ := pgAux_extends σ.length caps.length
            (engine offset prev).groups (engine offset prev).rc.toNat 0 offset prev caps
          refine ⟨L1 ++ L2, by rw [hL2, hL1, List.append_assoc], fun c hc => ?_⟩
          rcases List.mem_append.mp hc with h1 | h2
          · obtain ⟨j, _, hj2, hj3, hj4⟩ := hmem1 c h1
            exact ⟨offset, prev, j, by omega, hj3, by rw [hj4], by rw [hj4]⟩
          · exact hmem2 c h2
        · simp only [hrc, if_false] at h
          by_cases hprev : prev
          · simp only [hprev, if_true] at h
            exact ih _ _ _ _ _ h
          · rw [if_neg hprev] at h
            injection h with h2
            injection h2 with ha hb
            subst hb
            exact ⟨[], by simp, by simp⟩
      · rw [if_pos herr] at h
        injection h with h2
        injection h2 with ha hb
        subst hb
        exact ⟨[], by simp, by simp⟩
    · rw [if_neg hoff] at h
      injection h with h2
      injection h2 with ha hb
      subst hb
      exact ⟨[], by simp, by simp⟩

/-- C1: in `Regex::searchGlobal`, when the attempt following a zero-length
match (the forced `PCRE_NOTEMPTY_ATSTART | PCRE_ANCHORED` retry) finds no
match, the cursor advances by exactly one position — or by exactly two when
the configuration treats CRLF as a single newline and the bytes before and
at the advanced cursor are `\r\n` — the `prev_match_zero_length` flag is
cleared and iteration continues; an unconstrained non-match instead
terminates the loop normally with outcome `Ok` and the captures collected
so far. -/
theorem searchGlobal_nomatch_step (crlf : Bool) (σ : List Char) (engine : Engine)
    (fuel offset : Nat) (prev : Bool) (caps : List SMatchCapture)
    (hoff : offset ≤ σ.length)
    (hrc : (engine offset prev).rc = PCRE_ERROR_NOMATCH) :
    (prev = true →
      Regex.searchGlobalAux crlf σ engine (fuel + 1) offset prev caps =
        Regex.searchGlobalAux crlf σ engine fuel
          (if crlf ∧ offset + 1 < σ.length ∧ σ.getD offset 'x' = '\r' ∧
              σ.getD (offset + 1) 'x' = '\n'
           then offset + 2 else offset + 1) false caps)
    ∧ (prev = false →
      Regex.searchGlobalAux crlf σ engine (fuel + 1) offset prev caps =
        some (RegexResult.Ok, caps)) := by
  have hok : to_regex_result (engine offset prev).rc = RegexResult.Ok := by
    rw [hrc]; simp [to_regex_result, PCRE_ERROR_NOMATCH]
  have hpos : ¬ 0 < (engine offset prev).rc := by rw [hrc]; decide
  constructor
  · intro hp
    subst hp
    rw [Regex.searchGlobalAux, if_pos hoff]
    simp only [hok, ne_eq, not_true_eq_false, if_false, hpos]
    rfl
  · intro hp
    subst hp
    rw [Regex.searchGlobalAux, if_pos hoff]
    simp only [hok, ne_eq, not_true_eq_false, if_false, hpos]
    rfl

/-- Witness for C1: a concrete engine that reports no match during a forced
retry at offset 1 of subject `"ab"`; the step advances the cursor to 2 and
clears the flag. -/
theorem searchGlobal_nomatch_step_witness :
    Regex.searchGlobalAux false ['a', 'b'] (fun _ _ => ⟨-1, fun _ => (0, 0)⟩)
        (5 + 1) 1 true [] =
      Regex.searchGlobalAux false ['a', 'b'] (fun _ _ => ⟨-1, fun _ => (0, 0)⟩)
        5 2 false [] := by
  have h := (searchGlobal_nomatch_step false ['a', 'b']
    (fun _ _ => ⟨-1, fun _ => (0, 0)⟩) 5 1 true [] (by decide) rfl).1 rfl
  simpa using h

/-- C2: in `Regex::searchGlobal`, when one match attempt's classified
outcome is not `Ok`, the function stops immediately and returns that
outcome, and the caller's collection — including captures appended by
earlier iterations — is exactly what had been accumulated before that
attempt (every successful return extends the initial collection only by
appending). -/
theorem searchGlobal_error_stop (crlf : Bool) (σ : List Char) (engine : Engine)
    (fuel offset : Nat) (prev : Bool) (caps : List SMatchCapture)
    (hoff : offset ≤ σ.length)
    (hbad : to_regex_result (engine offset prev).rc ≠ RegexResult.Ok) :
    Regex.searchGlobalAux crlf σ engine (fuel + 1) offset prev caps =
      some (to_regex_result (engine offset prev).rc, caps)
    ∧ ∀ fuel2 off2 prev2 caps2 res out,
        Regex.searchGlobalAux crlf σ engine fuel2 off2 prev2 caps2 = some (res, out) →
        ∃ L, out = caps2 ++ L := by
  constructor
  · rw [Regex.searchGlobalAux, if_pos hoff]
    simp only [ne_eq, hbad, not_false_eq_true, if_true]
  · intro fuel2 off2 prev2 caps2 res out h
    obtain ⟨L, hL, _⟩ := searchGlobalAux_extends crlf σ engine fuel2 off2 prev2 caps2 res out h
    exact ⟨L, hL⟩

/-- Witness for C2: a concrete engine whose first attempt exceeds the match
limit; the call stops at once with `ErrorMatchLimit` and the caller's
pre-existing capture survives untouched. -/
theorem searchGlobal_error_stop_witness :
    Regex.searchGlobalAux false ['a'] (fun _ _ => ⟨-8, fun _ => (0, 0)⟩) (3 + 1) 0 false
      [⟨0, 0, 1⟩] = some (RegexResult.ErrorMatchLimit, [⟨0, 0, 1⟩]) := by
  have h := (searchGlobal_error_stop false ['a'] (fun _ _ => ⟨-8, fun _ => (0, 0)⟩) 3 0 false
    [⟨0, 0, 1⟩] (by decide) (by decide)).1
  exact h.trans (by decide)

/-- C5: `Regex::to_regex_result` sends every engine code into exactly the
three buckets: positive codes and `PCRE_ERROR_NOMATCH` to `Ok`,
`PCRE_ERROR_MATCHLIMIT` to `ErrorMatchLimit`, and everything else —
including the zero code signalling an insufficient offset vector — to
`ErrorOther`. -/
theorem to_regex_result_classification (rc : Int) :
    (to_regex_result rc = RegexResult.Ok ∨
      to_regex_result rc = RegexResult.ErrorMatchLimit ∨
      to_regex_result rc = RegexResult.ErrorOther)
    ∧ (to_regex_result rc = RegexResult.Ok ↔ 0 < rc ∨ rc = PCRE_ERROR_NOMATCH)
    ∧ (to_regex_result rc = RegexResult.ErrorMatchLimit ↔ rc = PCRE_ERROR_MATCHLIMIT)
    ∧ (to_regex_result rc = RegexResult.ErrorOther ↔
        ¬(0 < rc ∨ rc = PCRE_ERROR_NOMATCH) ∧ rc ≠ PCRE_ERROR_MATCHLIMIT)
    ∧ to_regex_result 0 = RegexResult.ErrorOther := by
  refine ⟨?_, ?_, ?_, ?_, by decide⟩
  · rcases hx : to_regex_result rc with _ | _ | _
    · exact Or.inl rfl
    · exact Or.inr (Or.inl rfl)
    · exact Or.inr (Or.inr rfl)
  all_goals (
    unfold to_regex_result
    split_ifs with h1 h2 <;>
      simp_all [PCRE_ERROR_NOMATCH, PCRE_ERROR_MATCHLIMIT] <;> omega)

/-- Witness for C5: the zero code (insufficient offset vector) classifies
as `ErrorOther` and the match-limit code as `ErrorMatchLimit`, via the
classification theorem. -/
theorem to_regex_result_classification_witness :
    to_regex_result 0 = RegexResult.ErrorOther ∧
      to_regex_result (-8) = RegexResult.ErrorMatchLimit :=
  ⟨(to_regex_result_classification 0).2.2.2.2,
   (to_regex_result_classification (-8)).2.2.1.mpr rfl⟩

lemma pgAux_state_of_pos (sLen fg : Nat) (g : Nat → Nat × Nat) :
    ∀ n i offset prev acc, 0 < i →
      (pgAux sLen fg g n i offset prev acc).2 = (offset, prev) := by
  intro n
  induction n with
  | zero => intro i offset prev acc _; simp [pgAux]
  | succ n ih =>
    intro i offset prev acc hi
    rw [pgAux]
    split_ifs with hb hz <;>
      first
        | omega
        | exact ih (i + 1) _ _ _ (by omega)

lemma append_cons_getElem (caps : List SMatchCapture) (c : SMatchCapture)
    (L : List SMatchCapture) : (caps ++ c :: L)[caps.length]? = some c := by
  rw [List.getElem?_append_right (le_refl caps.length)]
  simp

/-- C10: in `Regex::searchGlobal`, a successful match attempt hands the
loop the `pgAux` state and appends its whole-match capture at position
`captures.size()` with group index exactly `captures.size()` — so with a
non-empty caller-provided collection, the globally incrementing numbering
continues from the pre-existing entries instead of restarting at 0. -/
theorem searchGlobal_capture_numbering (crlf : Bool) (σ : List Char) (engine : Engine)
    (fuel offset : Nat) (prev : Bool) (caps : List SMatchCapture)
    (hoff : offset ≤ σ.length)
    (hrc : 0 < (engine offset prev).rc)
    (hg0 : ((engine offset prev).groups 0).2 ≤ σ.length) :
    Regex.searchGlobalAux crlf σ engine (fuel + 1) offset prev caps =
      Regex.searchGlobalAux crlf σ engine fuel
        (pgAux σ.length caps.length (engine offset prev).groups
          (engine offset prev).rc.toNat 0 offset prev caps).2.1
        (pgAux σ.length caps.length (engine offset prev).groups
          (engine offset prev).rc.toNat 0 offset prev caps).2.2
        (pgAux σ.length caps.length (engine offset prev).groups
          (engine offset prev).rc.toNat 0 offset prev caps).1
    ∧ (pgAux σ.length caps.length (engine offset prev).groups
          (engine offset prev).rc.toNat 0 offset prev caps).1[caps.length]? =
        some ⟨caps.length, ((engine offset prev).groups 0).1,
          csub ((engine offset prev).groups 0).2 ((engine offset prev).groups 0).1⟩ := by
  have hok : to_regex_result (engine offset prev).rc = RegexResult.Ok := by
    unfold to_regex_result
    rw [if_pos (Or.inl hrc)]
  constructor
  · rw [Regex.searchGlobalAux, if_pos hoff]
    simp only [hok, ne_eq, not_true_eq_false, if_false, hrc, if_true]
  · obtain ⟨m, hm⟩ : ∃ m, (engine offset prev).rc.toNat = m + 1 :=
      ⟨(engine offset prev).rc.toNat - 1, by omega⟩
    rw [hm, pgAux]
    rw [if_neg (by omega), if_pos rfl]
    have key : ∀ X (Y : Bool), ∃ L,
        (pgAux σ.length caps.length (engine offset prev).groups m 1 X Y
          (caps ++ [⟨caps.length + 0, ((engine offset prev).groups 0).1,
            csub ((engine offset prev).groups 0).2 ((engine offset prev).groups 0).1⟩])).1 =
        caps ++ ⟨caps.length, ((engine offset prev).groups 0).1,
          csub ((engine offset prev).groups 0).2 ((engine offset prev).groups 0).1⟩ :: L := by
      intro X Y
      obtain ⟨L, hL, _⟩ := pgAux_extends σ.length caps.length (engine offset prev).groups
        m 1 X Y (caps ++ [⟨caps.length + 0, ((engine offset prev).groups 0).1,
          csub ((engine offset prev).groups 0).2 ((engine offset prev).groups 0).1⟩])
      exact ⟨L, by simpa using hL⟩
    split_ifs with hz hoff2
    · obtain ⟨L, hL⟩ := key ((engine offset prev).groups 0).2 false
      rw [hL, append_cons_getElem]
    · obtain ⟨L, hL⟩ := key (offset + 1) prev
      rw [hL, append_cons_getElem]
    · obtain ⟨L, hL⟩ := key offset true
      rw [hL, append_cons_getElem]

/-- Witness for C10: a caller-provided collection of size 2; the first
capture of the newly found match is appended with index 2. -/
theorem searchGlobal_capture_numbering_witness :
    (pgAux 2 2 (fun _ => (0, 1)) 1 0 0 false [⟨0, 0, 0⟩, ⟨1, 0, 0⟩]).1[2]? =
      some ⟨2, 0, 1⟩ := by
  have h := (searchGlobal_capture_numbering false ['a', 'b']
    (fun _ _ => ⟨1, fun _ => (0, 1)⟩) 4 0 false [⟨0, 0, 0⟩, ⟨1, 0, 0⟩]
    (by decide) (by decide) (by decide)).2
  simpa [csub] using h

/-- C9: on the empty subject, `Regex::searchGlobal` terminates within two
loop iterations for every engine whose reported whole match lies inside
the subject, appending either exactly one zero-length whole-match capture
at offset 0 (possibly followed by sub-group captures, all carrying strictly
larger global indices) or nothing at all, and returns `Ok` unless the
single attempt's classified outcome was an engine error, in which case that
outcome is returned with the collection untouched. -/
theorem searchGlobal_empty_subject (crlf : Bool) (engine : Engine)
    (caps : List SMatchCapture)
    (hval : 0 < (engine 0 false).rc →
      ((engine 0 false).groups 0).1 ≤ ((engine 0 false).groups 0).2 ∧
      ((engine 0 false).groups 0).2 ≤ 0) :
    ∃ res out, Regex.searchGlobalAux crlf [] engine 2 0 false caps = some (res, out) ∧
      ((res ≠ RegexResult.Ok ∧ out = caps) ∨
       (res = RegexResult.Ok ∧ (out = caps ∨
         ∃ L, out = caps ++ ⟨caps.length, 0, 0⟩ :: L ∧
           ∀ c ∈ L, caps.length < c.m_group))) := by
  by_cases herr : to_regex_result (engine 0 false).rc = RegexResult.Ok
  · by_cases hrc : 0 < (engine 0 false).rc
    · obtain ⟨hg1, hg2⟩ := hval hrc
      have hst : ((engine 0 false).groups 0).1 = 0 := by omega
      have hen : ((engine 0 false).groups 0).2 = 0 := by omega
      obtain ⟨m, hm⟩ : ∃ m, (engine 0 false).rc.toNat = m + 1 :=
        ⟨(engine 0 false).rc.toNat - 1, by omega⟩
      have hpg : ∃ L, pgAux (List.length ([] : List Char)) caps.length
          (engine 0 false).groups (engine 0 false).rc.toNat 0 0 false caps =
          (caps ++ ⟨caps.length, 0, 0⟩ :: L, 1, false) ∧
          ∀ c ∈ L, caps.length < c.m_group := by
        rw [hm, pgAux]
        rw [if_neg (by simp [hen]), if_pos rfl]
        rw [if_neg (by simp [hst, hen, csub_self]), if_pos (by simp)]
        show ∃ L, pgAux 0 caps.length (engine 0 false).groups m 1 1 false
            (caps ++ [⟨caps.length + 0, ((engine 0 false).groups 0).1,
              csub ((engine 0 false).groups 0).2 ((engine 0 false).groups 0).1⟩]) =
            (caps ++ ⟨caps.length, 0, 0⟩ :: L, 1, false) ∧
            ∀ c ∈ L, caps.length < c.m_group
        obtain ⟨L, hL, hmem⟩ := pgAux_extends 0 caps.length (engine 0 false).groups
          m 1 1 false
          (caps ++ [⟨caps.length + 0, ((engine 0 false).groups 0).1,
            csub ((engine 0 false).groups 0).2 ((engine 0 false).groups 0).1⟩])
        have hstate := pgAux_state_of_pos 0 caps.length (engine 0 false).groups
          m 1 1 false
          (caps ++ [⟨caps.length + 0, ((engine 0 false).groups 0).1,
            csub ((engine 0 false).groups 0).2 ((engine 0 false).groups 0).1⟩])
          (by omega)
        refine ⟨L, Prod.ext ?_ hstate, fun c hc => ?_⟩
        · rw [hL]
          simp [hst, hen, csub_self]
        · obtain ⟨j, hj1, _, _, hj4⟩ := hmem c hc
          rw [hj4]
          exact Nat.lt_add_of_pos_right (by omega)
      obtain ⟨L, hpgEq, hmem⟩ := hpg
      refine ⟨RegexResult.Ok, caps ++ ⟨caps.length, 0, 0⟩ :: L, ?_, Or.inr ⟨rfl, Or.inr ⟨L, rfl, hmem⟩⟩⟩
      have step1 : Regex.searchGlobalAux crlf [] engine 2 0 false caps =
          Regex.searchGlobalAux crlf [] engine 1 1 false
            (caps ++ ⟨caps.length, 0, 0⟩ :: L) := by
        rw [Regex.searchGlobalAux, if_pos (by simp)]
        simp only [herr, ne_eq, not_true_eq_false, if_false, hrc, if_true]
        rw [hpgEq]
      rw [step1, Regex.searchGlobalAux, if_neg (by simp)]
    · refine ⟨RegexResult.Ok, caps, ?_, Or.inr ⟨rfl, Or.inl rfl⟩⟩
      rw [Regex.searchGlobalAux, if_pos (by simp)]
      simp only [herr, ne_eq, not_true_eq_false, if_false, hrc, if_false]
      rfl
  · refine ⟨to_regex_result (engine 0 false).rc, caps, ?_, Or.inl ⟨herr, rfl⟩⟩
    rw [Regex.searchGlobalAux, if_pos (by simp)]
    simp only [ne_eq, herr, not_false_eq_true, if_true]

/-- Witness for C9: a concrete engine matching the empty string at offset 0
with one group; the call terminates with `Ok` and exactly the zero-length
whole-match capture. -/
theorem searchGlobal_empty_subject_witness :
    ∃ res out, Regex.searchGlobalAux false []
        (fun off _ => if off = 0 then ⟨1, fun _ => (0, 0)⟩
          else ⟨-1, fun _ => (0, 0)⟩) 2 0 false [] = some (res, out) ∧
      ((res ≠ RegexResult.Ok ∧ out = []) ∨
       (res = RegexResult.Ok ∧ (out = [] ∨
         ∃ L, out = [] ++ ⟨List.length ([] : List SMatchCapture), 0, 0⟩ :: L ∧
           ∀ c ∈ L, List.length ([] : List SMatchCapture) < c.m_group))) :=
  searchGlobal_empty_subject false
    (fun off _ => if off = 0 then ⟨1, fun _ => (0, 0)⟩ else ⟨-1, fun _ => (0, 0)⟩)
    [] (by intro h; exact ⟨by decide, by decide⟩)

lemma somGroups_mem (sLen : Nat) (g : Nat → Nat × Nat) :
    ∀ n i c, c ∈ somGroups sLen g n i →
      ∃ j, i ≤ j ∧ j < i + n ∧ (g j).2 ≤ sLen ∧
        c = ⟨j, (g j).1, csub (g j).2 (g j).1⟩ := by
  intro n
  induction n with
  | zero => intro i c hc; simp [somGroups] at hc
  | succ n ih =>
    intro i c hc
    rw [somGroups] at hc
    by_cases hb : sLen < (g i).2
    · rw [if_pos hb] at hc
      obtain ⟨j, h1, h2, h3, h4⟩ := ih (i + 1) c hc
      exact ⟨j, by omega, by omega, h3, h4⟩
    · rw [if_neg hb] at hc
      rcases List.mem_cons.mp hc with h | h
      · exact ⟨i, le_refl i, by omega, by omega, h⟩
      · obtain ⟨j, h1, h2, h3, h4⟩ := ih (i + 1) c h
        exact ⟨j, by omega, by omega, h3, h4⟩

lemma saGroups_mem (σ : List Char) (g : Nat → Nat × Nat) :
    ∀ n i offset acc m, m ∈ (saGroups σ g n i offset acc).1 →
      m ∈ acc ∨ ∃ j, i ≤ j ∧ j < i + n ∧ (g j).2 ≤ σ.length ∧
        m = ⟨cppSubstr σ (g j).1 (csub (g j).2 (g j).1), (g j).1⟩ := by
  intro n
  induction n with
  | zero => intro i offset acc m hm; rw [saGroups] at hm; exact Or.inl hm
  | succ n ih =>
    intro i offset acc m hm
    rw [saGroups] at hm
    by_cases hb : σ.length < (g i).2
    · rw [if_pos hb] at hm
      exact Or.inl hm
    · rw [if_neg hb] at hm
      by_cases hz : csub (g i).2 (g i).1 = 0
      · rw [if_pos hz] at hm
        rcases List.mem_cons.mp hm with h | h
        · exact Or.inr ⟨i, le_refl i, by omega, by omega, h⟩
        · exact Or.inl h
      · rw [if_neg hz] at hm
        rcases ih (i + 1) ((g i).1 + csub (g i).2 (g i).1)
            (⟨cppSubstr σ (g i).1 (csub (g i).2 (g i).1), (g i).1⟩ :: acc) m hm with h | h
        · rcases List.mem_cons.mp h with h2 | h2
          · exact Or.inr ⟨i, le_refl i, by omega, by omega, h2⟩
          · exact Or.inl h2
        · obtain ⟨j, h1, h2, h3, h4⟩ := h
          exact Or.inr ⟨j, by omega, by omega, h3, h4⟩

lemma searchAllAux_mem (σ : List Char) (engine : Engine) :
    ∀ fuel offset acc m, m ∈ Regex.searchAllAux σ engine fuel offset acc →
      m ∈ acc ∨ ∃ off2 j, j < (engine off2 false).rc.toNat ∧
        ((engine off2 false).groups j).2 ≤ σ.length ∧
        m = ⟨cppSubstr σ ((engine off2 false).groups j).1
          (csub ((engine off2 false).groups j).2 ((engine off2 false).groups j).1),
          ((engine off2 false).groups j).1⟩ := by
  intro fuel
  induction fuel with
  | zero => intro offset acc m hm; rw [Regex.searchAllAux] at hm; exact Or.inl hm
  | succ fuel ih =>
    intro offset acc m hm
    rw [Regex.searchAllAux] at hm
    by_cases hrc : 0 < (engine offset false).rc
    · rw [if_pos hrc] at hm
      by_cases hcont : (saGroups σ (engine offset false).groups
          (engine offset false).rc.toNat 0 offset acc).2.2
      · rw [if_pos hcont] at hm
        rcases ih _ _ m hm with h | h
        · rcases saGroups_mem σ (engine offset false).groups _ _ _ _ m h with h2 | h2
          · exact Or.inl h2
          · obtain ⟨j, _, hj2, hj3, hj4⟩ := h2
            exact Or.inr ⟨offset, j, by omega, hj3, hj4⟩
        · exact Or.inr h
      · rw [if_neg hcont] at hm
        rcases saGroups_mem σ (engine offset false).groups _ _ _ _ m hm with h2 | h2
        · exact Or.inl h2
        · obtain ⟨j, _, hj2, hj3, hj4⟩ := h2
          exact Or.inr ⟨offset, j, by omega, hj3, hj4⟩
    · rw [if_neg hrc] at hm
      exact Or.inl hm

/-- C3: a reported match or capture group whose end offset exceeds the
subject's length is never surfaced: every capture appended by
`Regex::searchOneMatch` and `Regex::searchGlobal` originates from a
reported group with end within the subject (the offending group is
skipped), and in `Regex::searchAll` every surfaced match likewise comes
from an in-bounds group, while an out-of-bounds group aborts the
collection of that iteration's remaining groups (accumulator returned
as-is, continue-flag `false`) and the `false` flag stops the outer loop. -/
theorem bounds_violation_never_surfaced (crlf : Bool) (σ : List Char) (engine : Engine) :
    (∀ caps c, c ∈ (Regex.searchOneMatch σ engine caps).2 → c ∈ caps ∨
      ∃ j, j < (engine 0 false).rc.toNat ∧ ((engine 0 false).groups j).2 ≤ σ.length ∧
        c = ⟨j, ((engine 0 false).groups j).1,
          csub ((engine 0 false).groups j).2 ((engine 0 false).groups j).1⟩)
    ∧ (∀ fuel offset prev caps res out,
        Regex.searchGlobalAux crlf σ engine fuel offset prev caps = some (res, out) →
        ∀ c ∈ out, c ∈ caps ∨ ∃ off2 pb j, j < (engine off2 pb).rc.toNat ∧
          ((engine off2 pb).groups j).2 ≤ σ.length ∧
          c.m_offset = ((engine off2 pb).groups j).1 ∧
          c.m_length = csub ((engine off2 pb).groups j).2 ((engine off2 pb).groups j).1)
    ∧ (∀ fuel offset acc m, m ∈ Regex.searchAllAux σ engine fuel offset acc →
        m ∈ acc ∨ ∃ off2 j, j < (engine off2 false).rc.toNat ∧
          ((engine off2 false).groups j).2 ≤ σ.length ∧
          m = ⟨cppSubstr σ ((engine off2 false).groups j).1
            (csub ((engine off2 false).groups j).2 ((engine off2 false).groups j).1),
            ((engine off2 false).groups j).1⟩)
    ∧ (∀ g n i offset acc, σ.length < (g i).2 →
        saGroups σ g (n + 1) i offset acc = (acc, offset, false))
    ∧ (∀ fuel offset acc, 0 < (engine offset false).rc →
        (saGroups σ (engine offset false).groups
          (engine offset false).rc.toNat 0 offset acc).2.2 = false →
        Regex.searchAllAux σ engine (fuel + 1) offset acc =
          (saGroups σ (engine offset false).groups
            (engine offset false).rc.toNat 0 offset acc).1) := by
  refine ⟨?_, ?_, ?_, ?_, ?_⟩
  · intro caps c hc
    rw [Regex.searchOneMatch] at hc
    rcases List.mem_append.mp hc with h | h
    · exact Or.inl h
    · obtain ⟨j, _, hj2, hj3, hj4⟩ := somGroups_mem σ.length (engine 0 false).groups _ _ c h
      exact Or.inr ⟨j, by omega, hj3, hj4⟩
  · intro fuel offset prev caps res out h c hc
    obtain ⟨L, hL, hmem⟩ := searchGlobalAux_extends crlf σ engine fuel offset prev caps res out h
    subst hL
    rcases List.mem_append.mp hc with h2 | h2
    · exact Or.inl h2
    · exact Or.inr (hmem c h2)
  · exact searchAllAux_mem σ engine
  · intro g n i offset acc hb
    rw [saGroups, if_pos hb]
  · intro fuel offset acc hrc hstop
    rw [Regex.searchAllAux, if_pos hrc, if_neg (by rw [hstop]; exact Bool.false_ne_true)]

/-- Witness for C3: a concrete engine reporting a group ending at 9 in a
subject of length 2; `saGroups` aborts immediately with the accumulator
unchanged and the continue-flag cleared. -/
theorem bounds_violation_never_surfaced_witness :
    saGroups ['a', 'b'] (fun _ => (0, 9)) (2 + 1) 0 0 [] = ([], 0, false) :=
  (bounds_violation_never_surfaced false ['a', 'b']
    (fun _ _ => ⟨1, fun _ => (0, 9)⟩)).2.2.2.1 (fun _ => (0, 9)) 2 0 0 [] (by decide)

lemma saGroupsDisc_spec (σ : List Char) (g : Nat → Nat × Nat) :
    ∀ n i offset acc,
      saGroups σ g n i offset acc =
        ((saGroupsDisc σ g n i offset).1.reverse ++ acc,
         (saGroupsDisc σ g n i offset).2) := by
  intro n
  induction n with
  | zero => intro i offset acc; simp [saGroups, saGroupsDisc]
  | succ n ih =>
    intro i offset acc
    rw [saGroups, saGroupsDisc]
    by_cases hb : σ.length < (g i).2
    · simp [hb]
    · by_cases hz : csub (g i).2 (g i).1 = 0
      · simp [hb, hz]
      · simp only [hb, if_false, hz]
        rw [ih (i + 1) ((g i).1 + csub (g i).2 (g i).1)
          (⟨cppSubstr σ (g i).1 (csub (g i).2 (g i).1), (g i).1⟩ :: acc)]
        simp

lemma searchAllAux_disc (σ : List Char) (engine : Engine) :
    ∀ fuel offset acc,
      Regex.searchAllAux σ engine fuel offset acc =
        (Regex.searchAllDisc σ engine fuel offset).reverse ++ acc := by
  intro fuel
  induction fuel with
  | zero => intro offset acc; simp [Regex.searchAllAux, Regex.searchAllDisc]
  | succ fuel ih =>
    intro offset acc
    rw [Regex.searchAllAux, Regex.searchAllDisc]
    by_cases hrc : 0 < (engine offset false).rc
    · simp only [hrc, if_true]
      rw [saGroupsDisc_spec σ (engine offset false).groups
        (engine offset false).rc.toNat 0 offset acc]
      by_cases hcont : (saGroupsDisc σ (engine offset false).groups
          (engine offset false).rc.toNat 0 offset).2.2
      · simp only [hcont, if_true]
        rw [ih]
        simp
      · simp only [hcont, if_false]
        simp at hcont
        simp [hcont]
    · simp [hrc]

/-- C7: `Regex::searchAll` returns its matches in reverse-discovery order
(most recently found first, the effect of `push_front`); each recorded
match advances the search offset to that match's end; a zero-length match
is recorded and then immediately ends the group iteration with the
continue-flag cleared, and a cleared flag stops the outer loop. -/
theorem searchAll_reverse_discovery (σ : List Char) (engine : Engine) :
    (∀ fuel, Regex.searchAll σ engine fuel =
      (Regex.searchAllDisc σ engine fuel 0).reverse)
    ∧ (∀ g n i offset acc,
        (g i).1 ≤ (g i).2 → (g i).2 ≤ σ.length → σ.length < 2 ^ 64 →
        0 < (g i).2 - (g i).1 →
        saGroups σ g (n + 1) i offset acc =
          saGroups σ g n (i + 1) ((g i).2)
            (⟨cppSubstr σ ((g i).1) ((g i).2 - (g i).1), (g i).1⟩ :: acc))
    ∧ (∀ g n i offset acc, (g i).1 = (g i).2 → (g i).2 ≤ σ.length →
        saGroups σ g (n + 1) i offset acc =
          (⟨[], (g i).1⟩ :: acc, (g i).1, false))
    ∧ (∀ fuel offset acc, 0 < (engine offset false).rc →
        (saGroups σ (engine offset false).groups
          (engine offset false).rc.toNat 0 offset acc).2.2 = false →
        Regex.searchAllAux σ engine (fuel + 1) offset acc =
          (saGroups σ (engine offset false).groups
            (engine offset false).rc.toNat 0 offset acc).1) := by
  refine ⟨?_, ?_, ?_, ?_⟩
  · intro fuel
    rw [Regex.searchAll, searchAllAux_disc]
    simp
  · intro g n i offset acc h1 h2 h3 h4
    have hsub : (g i).2 - (g i).1 < 2 ^ 64 := by omega
    have hcsub : csub (g i).2 (g i).1 = (g i).2 - (g i).1 := csub_of_le h1 hsub
    rw [saGroups, if_neg (by omega)]
    rw [if_neg (by omega : ¬ csub (g i).2 (g i).1 = 0)]
    rw [hcsub, show (g i).1 + ((g i).2 - (g i).1) = (g i).2 from by omega]
  · intro g n i offset acc h1 h2
    have hz : csub (g i).2 (g i).1 = 0 := by rw [h1, csub_self]
    rw [saGroups, if_neg (by omega), if_pos hz]
    rw [hz]
    simp [cppSubstr]
  · intro fuel offset acc hrc hstop
    rw [Regex.searchAllAux, if_pos hrc, if_neg (by rw [hstop]; exact Bool.false_ne_true)]

/-- Witness for C7: a concrete engine finding `X` at offsets 1 and 3 of
`"aXbXc"`; `searchAll` returns the offset-3 match first (reverse-discovery
order) and equals the reversed discovery-order list. -/
theorem searchAll_reverse_discovery_witness :
    Regex.searchAll ['a', 'X', 'b', 'X', 'c']
      (fun off _ => if off ≤ 1 then ⟨1, fun _ => (1, 2)⟩
        else if off ≤ 3 then ⟨1, fun _ => (3, 4)⟩
        else ⟨-1, fun _ => (0, 0)⟩) 5 =
      (Regex.searchAllDisc ['a', 'X', 'b', 'X', 'c']
        (fun off _ => if off ≤ 1 then ⟨1, fun _ => (1, 2)⟩
          else if off ≤ 3 then ⟨1, fun _ => (3, 4)⟩
          else ⟨-1, fun _ => (0, 0)⟩) 5 0).reverse ∧
    Regex.searchAll ['a', 'X', 'b', 'X', 'c']
      (fun off _ => if off ≤ 1 then ⟨1, fun _ => (1, 2)⟩
        else if off ≤ 3 then ⟨1, fun _ => (3, 4)⟩
        else ⟨-1, fun _ => (0, 0)⟩) 5 = [⟨['X'], 3⟩, ⟨['X'], 1⟩] ∧
    saGroups ['a', 'X', 'b', 'X', 'c'] (fun _ => (2, 2)) (0 + 1) 0 0 [] =
      (⟨[], 2⟩ :: [], 2, false) :=
  ⟨(searchAll_reverse_discovery ['a', 'X', 'b', 'X', 'c']
      (fun off _ => if off ≤ 1 then ⟨1, fun _ => (1, 2)⟩
        else if off ≤ 3 then ⟨1, fun _ => (3, 4)⟩
        else ⟨-1, fun _ => (0, 0)⟩)).1 5, by decide,
   (searchAll_reverse_discovery ['a', 'X', 'b', 'X', 'c']
      (fun off _ => if off ≤ 1 then ⟨1, fun _ => (1, 2)⟩
        else if off ≤ 3 then ⟨1, fun _ => (3, 4)⟩
        else ⟨-1, fun _ => (0, 0)⟩)).2.2.1 (fun _ => (2, 2)) 0 0 0 [] rfl (by decide)⟩

/-- C6 counterexample: an engine reporting the whole match at byte range
[1,2) of subject `"ab"`.  `Regex::search` returns the correct text slice
`"b"` but offset 0 — the literal `0` passed to the `SMatch` constructor at
`src/utils/regex.cc:369-371` — not the match's start position 1. -/
theorem search_offset_counterexample :
    Regex.search ['a', 'b'] (fun _ _ => ⟨1, fun _ => (1, 2)⟩) = some ⟨['b'], 0⟩ ∧
    (((fun _ _ => ⟨1, fun _ => (1, 2)⟩ : Engine) 0 false).groups 0).1 = 1 ∧
    Regex.search ['a', 'b'] (fun _ _ => ⟨1, fun _ => (1, 2)⟩) ≠ some ⟨['b'], 1⟩ :=
  ⟨by decide, by decide, by decide⟩

/-- C6 amended: on a successful attempt, `Regex::search` returns a Match
whose text is the literal slice `subject[start:end]` of the whole-match
capture taken from the match position vector, and whose offset field is
always 0 regardless of where the match begins. -/
theorem search_match_text_amended (σ : List Char) (engine : Engine)
    (st e : Nat)
    (h1 : 0 < (engine 0 false).rc)
    (hg : (engine 0 false).groups 0 = (st, e))
    (h2 : st ≤ e) (h3 : e ≤ σ.length) (h4 : σ.length < 2 ^ 64) :
    Regex.search σ engine = some ⟨(σ.take e).drop st, 0⟩ := by
  rw [Regex.search]
  simp only [h1, if_true, hg]
  have hc : csub e st = e - st := csub_of_le h2 (by omega)
  rw [hc, cppSubstr, ← List.drop_take]

/-- Witness for the amended C6: a concrete match at range [1,2) of `"ab"`
yields text `"b"` and offset 0. -/
theorem search_match_text_amended_witness :
    Regex.search ['a', 'b'] (fun _ _ => ⟨1, fun _ => (1, 2)⟩) =
      some ⟨(['a', 'b'].take 2).drop 1, 0⟩ :=
  search_match_text_amended ['a', 'b'] (fun _ _ => ⟨1, fun _ => (1, 2)⟩) 1 2
    (by decide) (by decide) (by decide) (by decide) (by decide)

/-- C4: `RulesSetPhases::insert` rejects `phase == NUMBER_OF_PHASES` and
larger phases with `false` and no mutation, and appends with `true` for an
in-range phase — but a negative phase passes the `>= NUMBER_OF_PHASES`
guard and indexes `m_rulesAtPhase[phase]` out of bounds (undefined
behavior, modelled `none`) instead of returning `false` as the claim
demands. -/
theorem phase_insert_negative_phase_ub :
    RulesSetPhases.insert ⟨fun _ => ⟨[]⟩⟩ ⟨-1, none⟩ = none
    ∧ RulesSetPhases.insert ⟨fun _ => ⟨[]⟩⟩ ⟨7, none⟩ = some (false, ⟨fun _ => ⟨[]⟩⟩)
    ∧ RulesSetPhases.insert ⟨fun _ => ⟨[]⟩⟩ ⟨8, none⟩ = some (false, ⟨fun _ => ⟨[]⟩⟩)
    ∧ (RulesSetPhases.insert ⟨fun _ => ⟨[]⟩⟩ ⟨2, some 5⟩).map
        (fun pr => (pr.1, pr.2.bucketRules 2, pr.2.totalRules)) =
        some (true, [⟨2, some 5⟩], 1)
    ∧ (∀ t r, (NUMBER_OF_PHASES : Int) ≤ r.phase →
        RulesSetPhases.insert t r = some (false, t)) := by
  refine ⟨rfl, rfl, rfl, by decide, ?_⟩
  intro t r h
  rw [RulesSetPhases.insert, dif_pos h]

/-- Witness for C4: the reject path applied at phase 9 of a non-empty
table leaves it untouched. -/
theorem phase_insert_negative_phase_ub_witness :
    RulesSetPhases.insert ⟨fun _ => ⟨[⟨0, none⟩]⟩⟩ ⟨9, none⟩ =
      some (false, ⟨fun _ => ⟨[⟨0, none⟩]⟩⟩) :=
  phase_insert_negative_phase_ub.2.2.2.2 ⟨fun _ => ⟨[⟨0, none⟩]⟩⟩ ⟨9, none⟩ (by decide)

/-- C8: `RulesSetPhases::append` first builds one sorted list of the
identifiers of every operator-bearing rule across all phases of the
destination table (rules without an operator contribute nothing), then
merges the source's buckets phase by phase in ascending order, passing
that single shared list to every per-phase merge; a negative per-phase
result is returned immediately — no further phase is merged and the
buckets already merged (all buckets other than the failing one) keep
their merged contents. -/
theorem append_shared_sorted_ids (merge : MergeFn) (t src : RulesSetPhases) :
    List.Sorted (· ≤ ·) t.usedIds
    ∧ t.usedIds.Perm t.collectIds
    ∧ RulesSetPhases.append t merge src =
        RulesSetPhases.appendGo merge src t.usedIds 0 0 t
    ∧ (∀ (v : List Int) (p : Nat) (acc : Int) (t2 : RulesSetPhases)
        (h : p < NUMBER_OF_PHASES),
        (merge (t2.m_rulesAtPhase ⟨p, h⟩) (src.m_rulesAtPhase ⟨p, h⟩) v).1 < 0 →
        RulesSetPhases.appendGo merge src v p acc t2 =
          ((merge (t2.m_rulesAtPhase ⟨p, h⟩) (src.m_rulesAtPhase ⟨p, h⟩) v).1,
           t2.setBucket ⟨p, h⟩
             (merge (t2.m_rulesAtPhase ⟨p, h⟩) (src.m_rulesAtPhase ⟨p, h⟩) v).2))
    ∧ (∀ (v : List Int) (p : Nat) (acc : Int) (t2 : RulesSetPhases)
        (h : p < NUMBER_OF_PHASES),
        0 ≤ (merge (t2.m_rulesAtPhase ⟨p, h⟩) (src.m_rulesAtPhase ⟨p, h⟩) v).1 →
        RulesSetPhases.appendGo merge src v p acc t2 =
          RulesSetPhases.appendGo merge src v (p + 1)
            (acc + (merge (t2.m_rulesAtPhase ⟨p, h⟩) (src.m_rulesAtPhase ⟨p, h⟩) v).1)
            (t2.setBucket ⟨p, h⟩
              (merge (t2.m_rulesAtPhase ⟨p, h⟩) (src.m_rulesAtPhase ⟨p, h⟩) v).2))
    ∧ (∀ t2 (p : Fin NUMBER_OF_PHASES) b (q : Fin NUMBER_OF_PHASES), q ≠ p →
        (RulesSetPhases.setBucket t2 p b).m_rulesAtPhase q = t2.m_rulesAtPhase q) := by
  refine ⟨List.sorted_insertionSort _ _, List.perm_insertionSort _ _, rfl, ?_, ?_, ?_⟩
  · intro v p acc t2 h hneg
    rw [RulesSetPhases.appendGo, dif_pos h]
    simp only [if_pos hneg]
  · intro v p acc t2 h hpos
    rw [RulesSetPhases.appendGo, dif_pos h]
    have hc : ¬ (merge (t2.m_rulesAtPhase ⟨p, h⟩) (src.m_rulesAtPhase ⟨p, h⟩) v).1 < 0 := by
      omega
    simp only [if_neg hc]
  · intro t2 p b q hq
    exact Function.update_noteq hq b t2.m_rulesAtPhase

/-- Witness for C8: a per-phase merge that always fails with -2 makes the
loop at phase 3 return -2 immediately. -/
theorem append_shared_sorted_ids_witness :
    (RulesSetPhases.appendGo (fun b _ _ => (-2, b)) ⟨fun _ => ⟨[]⟩⟩ [] 3 5
      ⟨fun _ => ⟨[]⟩⟩).1 = -2 := by
  rw [(append_shared_sorted_ids (fun b _ _ => (-2, b)) ⟨fun _ => ⟨[]⟩⟩
    ⟨fun _ => ⟨[]⟩⟩).2.2.2.1 [] 3 5 ⟨fun _ => ⟨[]⟩⟩ (by decide) (by decide)]
